import Mathlib

/-!
Shallow embedding of `s3promote.py` (class `S3Promote` and its module-level
helpers).  The S3 bucket is modelled as an association list from key paths to
stored objects; every boto call used by the class (`get_key`, `set_metadata` +
`set_contents_from_filename`, `Key.copy`, `Bucket.copy_key`) becomes an
explicit operation on that list.  Python exceptions become `Except S3Err`.
The two sources of environment input — the bytes of the local file at
`self.filepath` and the string produced by `uuid4()` — are passed in as
explicit parameters (`contents`, `gen`).
-/

/-- Python exceptions raised by the code, by their role. -/
inductive S3Err
  | invalidRank      -- `Exception('invalid rank')` from the rank setter
  | configError      -- the two `Exception(...)` raises in `__init__`
  | keyError         -- `KeyError` from `key.metadata['version']`
  | storageNotFound  -- boto `S3ResponseError` 404 on a copy from a missing key
  | typeError        -- `TypeError` from joining a `None` path part
deriving DecidableEq, Repr

/-- A stored S3 object: its string metadata (a dict, modelled as an
association list) and its contents. -/
structure S3Obj where
  metadata : List (String × String)
  contents : String
deriving DecidableEq, Repr

/-- The bucket: an association list from key path to object. -/
abbrev S3Storage := List (String × S3Obj)

instance {ε α : Type} [DecidableEq ε] [DecidableEq α] : DecidableEq (Except ε α) :=
  fun a b =>
    match a, b with
    | .error x, .error y =>
      if h : x = y then .isTrue (h ▸ rfl) else .isFalse fun hh => h (Except.error.inj hh)
    | .ok x, .ok y =>
      if h : x = y then .isTrue (h ▸ rfl) else .isFalse fun hh => h (Except.ok.inj hh)
    | .error _, .ok _ => .isFalse fun hh => Except.noConfusion hh
    | .ok _, .error _ => .isFalse fun hh => Except.noConfusion hh

/-- Metadata dict lookup (`d[name]` yields `KeyError` at the use site when
this returns `none`). -/
def lookupMeta : List (String × String) → String → Option String
  | [], _ => none
  | (k, v) :: rest, name => if k = name then some v else lookupMeta rest name

/-- `bucket.get_key(k)`: the object stored at key path `k`, if any. -/
def lookupKey : S3Storage → String → Option S3Obj
  | [], _ => none
  | (k', o') :: rest, k => if k' = k then some o' else lookupKey rest k

/-- Writing an object at a key path: overwrite in place, else append. -/
def putKey : S3Storage → String → S3Obj → S3Storage
  | [], k, o => [(k, o)]
  | (k', o') :: rest, k, o =>
      if k' = k then (k, o) :: rest else (k', o') :: putKey rest k o

/-- A mutating storage call issued by the code. -/
inductive S3Action
  | put (key : String) (version : String)   -- `key.set_contents_from_filename`
  | copy (src dst : String)                 -- a server-side copy
deriving DecidableEq, Repr

/-- `str.split(sep)` over the character list, single-character separator:
split at every occurrence, keeping empty pieces; the result is never empty. -/
def split_char (sep : Char) : List Char → List (List Char)
  | [] => [[]]
  | c :: rest =>
    match split_char sep rest with
    | [] => [[c]]   -- unreachable: the recursive result is always nonempty
    | s :: ss => if c = sep then [] :: s :: ss else (c :: s) :: ss

/-- Python `str.split(sep)` for a one-character separator. -/
def py_split (s : String) (sep : Char) : List String :=
  (split_char sep s.data).map fun cs => ⟨cs⟩

/-- Python `str.strip()`: drop whitespace from both ends. -/
def py_strip (s : String) : String :=
  ⟨((s.data.dropWhile Char.isWhitespace).reverse.dropWhile Char.isWhitespace).reverse⟩

/-- `_get_filename`: `filepath.split('/')[-1]`.  `str.split` always returns a
nonempty list, so the `[-1]` index is total; `getLastD` with any default is
exact. -/
def _get_filename (filepath : String) : String :=
  (py_split filepath '/').getLastD ""

/-- `_make_key_path`: `'/'.join(ordered_parts)`. -/
def _make_key_path : List String → String
  | [] => ""
  | [x] => x
  | x :: y :: rest => x ++ "/" ++ _make_key_path (y :: rest)

/-- `list.index(a)`: index of the first occurrence.  Python raises
`ValueError` when `a` is absent; there this returns `l.length`.  All callers
in the code run under the rank setter's invariant `rank ∈ ranks`, and every
theorem using it carries that hypothesis. -/
def list_index : List String → String → Nat
  | [], _ => 0
  | x :: xs, a => if x = a then 0 else list_index xs a + 1

/-- The `S3Promote` object as seen by the promotion logic, after `filepath`
and `rank` have been set: the parsed rank list, the derived `filename`, and
the target `rank`.  (`self.filepath` itself only feeds
`set_contents_from_filename`; its bytes are the `contents` parameter of
`upload`/`promote`.) -/
structure S3Promote where
  ranks : List String
  filename : String
  rank : String
deriving DecidableEq, Repr

/-- `key_path` property: `_make_key_path([self.rank, self.filename])`. -/
def S3Promote.key_path (p : S3Promote) : String :=
  _make_key_path [p.rank, p.filename]

/-- `rank_index` property: `self.ranks.index(self.rank)`. -/
def S3Promote.rank_index (p : S3Promote) : Nat :=
  list_index p.ranks p.rank

/-- `prev_rank_index` property: `None` when `rank_index - 1 == -1`
(on Python ints, exactly when `rank_index == 0`), else `rank_index - 1`. -/
def S3Promote.prev_rank_index (p : S3Promote) : Option Nat :=
  if p.rank_index = 0 then none else some (p.rank_index - 1)

/-- `prev_key_path` property: `None` when there is no previous rank, else
`_make_key_path([self.ranks[prev], self.filename])`.  The list index is in
range whenever `rank ∈ ranks`, so `getD` with any default is exact there. -/
def S3Promote.prev_key_path (p : S3Promote) : Option String :=
  match p.prev_rank_index with
  | none => none
  | some i => some (_make_key_path [p.ranks.getD i "", p.filename])

/-- `get_key()`: `self.bucket.get_key(self.key_path)`. -/
def S3Promote.get_key (p : S3Promote) (st : S3Storage) : Option S3Obj :=
  lookupKey st p.key_path

/-- `get_prev_key()`: `None` when `prev_key_path` is `None`, else
`self.bucket.get_key(self.prev_key_path)`. -/
def S3Promote.get_prev_key (p : S3Promote) (st : S3Storage) : Option S3Obj :=
  match p.prev_key_path with
  | none => none
  | some k => lookupKey st k

/-- `version` property: `None` when the object is absent, else
`key.metadata['version']` — which raises `KeyError` when the object exists
but carries no `'version'` metadata entry. -/
def S3Promote.version (p : S3Promote) (st : S3Storage) :
    Except S3Err (Option String) :=
  match p.get_key st with
  | none => .ok none
  | some o =>
    match lookupMeta o.metadata "version" with
    | none => .error .keyError
    | some v => .ok (some v)

/-- `prev_version` property: `None` when `get_prev_key()` is `None` (no
previous rank, or no object there), else that key's `metadata['version']`
with the same `KeyError` behaviour. -/
def S3Promote.prev_version (p : S3Promote) (st : S3Storage) :
    Except S3Err (Option String) :=
  match p.get_prev_key st with
  | none => .ok none
  | some o =>
    match lookupMeta o.metadata "version" with
    | none => .error .keyError
    | some v => .ok (some v)

/-- `archive(key)`: copy the object at `srcKey` to
`_make_key_path(['archive', self.version, self.filename])`.  `self.version`
is re-read from storage; a `None` version would make `'/'.join` raise
`TypeError`, and a copy from a missing key raises in boto. -/
def S3Promote.archive (p : S3Promote) (st : S3Storage) (srcKey : String) :
    Except S3Err (S3Storage × List S3Action) :=
  match p.version st with
  | .error e => .error e
  | .ok none => .error .typeError
  | .ok (some v) =>
    match lookupKey st srcKey with
    | none => .error .storageNotFound
    | some o =>
      let dst := _make_key_path ["archive", v, p.filename]
      .ok (putKey st dst o, [S3Action.copy srcKey dst])

/-- `copy_key(src, dst)`: `self.bucket.copy_key(dst, self.bucket.name, src)`,
a server-side copy carrying the source object's metadata; boto raises a 404
when the source key does not exist. -/
def S3Promote.copy_key (p : S3Promote) (st : S3Storage)
    (src_key_path dst_key_path : String) :
    Except S3Err (S3Storage × List S3Action) :=
  match lookupKey st src_key_path with
  | none => .error .storageNotFound
  | some o => .ok (putKey st dst_key_path o, [S3Action.copy src_key_path dst_key_path])

/-- `upload(new_version)`: default the version to `str(uuid4())` (the `gen`
parameter), write the local file (`contents`) at `key_path` with metadata
`version`, then `self.archive(key)` on the just-written key. -/
def S3Promote.upload (p : S3Promote) (st : S3Storage) (contents gen : String)
    (new_version : Option String) :
    Except S3Err (S3Storage × List S3Action) :=
  let nv := match new_version with | none => gen | some v => v
  let obj : S3Obj := { metadata := [("version", nv)], contents := contents }
  let st1 := putKey st p.key_path obj
  match p.archive st1 p.key_path with
  | .error e => .error e
  | .ok (st2, acts) => .ok (st2, S3Action.put p.key_path nv :: acts)

/-- Python `str(...)` as used by `'{}'.format` on an `Optional[str]`. -/
def pyStr : Option String → String
  | none => "None"
  | some s => s

/-- The no-op warning: `'{} version {} already in {} rank'.format(
self.filename, self.version, self.rank)`. -/
def S3Promote.warning_msg (p : S3Promote) (v : Option String) : String :=
  p.filename ++ " version " ++ pyStr v ++ " already in " ++ p.rank ++ " rank"

/-- Result of one `promote` call: the bucket afterwards, the returned value
(`none` on the mutating paths, the warning string on the no-op path), and
the mutating storage calls issued. -/
structure PromoteResult where
  store : S3Storage
  warning : Option String
  actions : List S3Action
deriving DecidableEq, Repr

/-- `promote(new_version)`: the guard
`self.version == new_version or self.version == self.prev_version`
(evaluated left to right, `or` short-circuiting, so `prev_version` is only
read when the first comparison is false) returns the warning; otherwise
`upload(new_version)` when there is no previous rank, else
`copy_key(prev_key_path, key_path)`. -/
def S3Promote.promote (p : S3Promote) (st : S3Storage) (contents gen : String)
    (new_version : Option String) : Except S3Err PromoteResult :=
  match p.version st with
  | .error e => .error e
  | .ok cv =>
    if cv = new_version then
      .ok ⟨st, some (p.warning_msg cv), []⟩
    else
      match p.prev_version st with
      | .error e => .error e
      | .ok pv =>
        if cv = pv then
          .ok ⟨st, some (p.warning_msg cv), []⟩
        else
          match p.prev_rank_index with
          | none =>
            match p.upload st contents gen new_version with
            | .error e => .error e
            | .ok (st2, acts) => .ok ⟨st2, none, acts⟩
          | some i =>
            match p.copy_key st (_make_key_path [p.ranks.getD i "", p.filename]) p.key_path with
            | .error e => .error e
            | .ok (st2, acts) => .ok ⟨st2, none, acts⟩

/-- The object under construction in `__init__` / the property setters:
`filepath`, `filename` and `rank` may not have been assigned yet. -/
structure PromoterState where
  ranks : List String
  filepath : Option String
  filename : Option String
  rank : Option String
deriving DecidableEq, Repr

/-- The `filepath` setter: store the path and derive `filename`. -/
def PromoterState.set_filepath (p : PromoterState) (fp : String) : PromoterState :=
  { p with filepath := some fp, filename := some (_get_filename fp) }

/-- The `rank` setter: `if rank not in self.ranks: raise`, else store it. -/
def PromoterState.set_rank (p : PromoterState) (r : String) :
    Except S3Err PromoterState :=
  if r ∈ p.ranks then .ok { p with rank := some r } else .error .invalidRank

/-- `__init__`'s rank-list parsing: split on comma, strip whitespace. -/
def parse_ranks (raw : String) : List String :=
  (py_split raw ',').map py_strip

/-- `__init__`: resolve the bucket name from the keyword argument or the
environment (else raise), likewise the raw rank string, parse the ranks,
then run the `filepath` and `rank` setters when those keyword arguments are
present. -/
def PromoterState.init (kw_bucket kw_ranks kw_filepath kw_rank : Option String)
    (env_bucket env_ranks : Option String) : Except S3Err PromoterState :=
  let bucket_name := match kw_bucket with | some b => some b | none => env_bucket
  match bucket_name with
  | none => .error .configError
  | some _ =>
    let raw_ranks := match kw_ranks with | some r => some r | none => env_ranks
    match raw_ranks with
    | none => .error .configError
    | some raw =>
      let base : PromoterState :=
        { ranks := parse_ranks raw, filepath := none, filename := none, rank := none }
      let p1 := match kw_filepath with | none => base | some fp => base.set_filepath fp
      match kw_rank with
      | none => .ok p1
      | some r => p1.set_rank r

/-- The rank invariant: when a target rank is stored, it is a member of the
configured rank list. -/
def rank_inv_b (p : PromoterState) : Bool :=
  match p.rank with
  | none => true
  | some r => decide (r ∈ p.ranks)

/-- The archive invariant: every object sitting at a rank key path whose
metadata carries a version has an archive copy at
`archive/<version>/<filename>`. -/
def archive_inv_b (ranks : List String) (filename : String) (st : S3Storage) : Bool :=
  ranks.all fun r =>
    match lookupKey st (_make_key_path [r, filename]) with
    | none => true
    | some o =>
      match lookupMeta o.metadata "version" with
      | none => true
      | some v => (lookupKey st (_make_key_path ["archive", v, filename])).isSome

/-! ## Storage and list lemmas -/

theorem lookupKey_putKey (st : S3Storage) (k k' : String) (o : S3Obj) :
    lookupKey (putKey st k o) k' = if k' = k then some o else lookupKey st k' := by
  induction st with
  | nil =>
    by_cases h : k' = k
    · subst h; simp [putKey, lookupKey]
    · have h2 : ¬ k = k' := fun hh => h hh.symm
      simp [putKey, lookupKey, h, h2]
  | cons hd tl ih =>
    obtain ⟨k0, o0⟩ := hd
    by_cases h0 : k0 = k
    · subst h0
      by_cases h1 : k' = k0
      · subst h1; simp [putKey, lookupKey]
      · have h2 : ¬ k0 = k' := fun hh => h1 hh.symm
        simp [putKey, lookupKey, h1, h2]
    · by_cases h1 : k0 = k'
      · subst h1
        have h2 : ¬ k0 = k := h0
        simp [putKey, lookupKey, h2]
      · simp [putKey, lookupKey, h0, h1, ih]

theorem isSome_lookupKey_putKey (st : S3Storage) (k k' : String) (o : S3Obj)
    (h : (lookupKey st k').isSome) : (lookupKey (putKey st k o) k').isSome := by
  rw [lookupKey_putKey]
  by_cases hk : k' = k
  · rw [if_pos hk]; rfl
  · rw [if_neg hk]; exact h

theorem list_index_lt_length {l : List String} {a : String} (h : a ∈ l) :
    list_index l a < l.length := by
  induction l with
  | nil => cases h
  | cons x xs ih =>
    simp only [list_index]
    by_cases hx : x = a
    · rw [if_pos hx]; simp
    · rw [if_neg hx]
      have : a ∈ xs := by
        cases h with
        | head => exact absurd rfl hx
        | tail _ hm => exact hm
      simpa [Nat.succ_lt_succ_iff] using ih this

theorem get?_list_index {l : List String} {a : String} (h : a ∈ l) :
    l.get? (list_index l a) = some a := by
  induction l with
  | nil => cases h
  | cons x xs ih =>
    simp only [list_index]
    by_cases hx : x = a
    · rw [if_pos hx]; simp [hx]
    · rw [if_neg hx]
      have : a ∈ xs := by
        cases h with
        | head => exact absurd rfl hx
        | tail _ hm => exact hm
      simpa using ih this

theorem get?_before_list_index {l : List String} {a : String} {j : Nat}
    (h : j < list_index l a) : l.get? j ≠ some a := by
  induction l generalizing j with
  | nil => simp [list_index] at h
  | cons x xs ih =>
    simp only [list_index] at h
    by_cases hx : x = a
    · rw [if_pos hx] at h; exact absurd h (Nat.not_lt_zero j)
    · rw [if_neg hx] at h
      cases j with
      | zero => simpa using hx
      | succ j0 =>
        have hj : j0 < list_index xs a := Nat.lt_of_succ_lt_succ h
        simpa using ih hj

theorem list_index_eq_of_first {l : List String} {a : String} {i : Nat}
    (h1 : l.get? i = some a) (h2 : ∀ j, j < i → l.get? j ≠ some a) :
    list_index l a = i := by
  induction l generalizing i with
  | nil => simp at h1
  | cons x xs ih =>
    cases i with
    | zero =>
      simp at h1
      simp [list_index, h1]
    | succ i0 =>
      have hx : x ≠ a := by
        have := h2 0 (Nat.succ_pos i0)
        simpa using this
      simp only [list_index, if_neg hx]
      have h1' : xs.get? i0 = some a := by simpa using h1
      have h2' : ∀ j, j < i0 → xs.get? j ≠ some a := by
        intro j hj
        have := h2 (j + 1) (Nat.succ_lt_succ hj)
        simpa using this
      rw [ih h1' h2']

/-! ## Branch lemmas for `promote` -/

/-- The version actually written by `upload`: the argument when supplied,
the `uuid4()` string otherwise (matches `upload`'s `let nv := ...`). -/
def default_version (new_version : Option String) (gen : String) : String :=
  match new_version with | none => gen | some v => v

theorem prev_version_of_no_prev (p : S3Promote) (st : S3Storage)
    (h : p.prev_rank_index = none) : p.prev_version st = .ok none := by
  simp [S3Promote.prev_version, S3Promote.get_prev_key, S3Promote.prev_key_path, h]

theorem prev_key_path_of_index (p : S3Promote) (i : Nat)
    (h : p.prev_rank_index = some i) :
    p.prev_key_path = some (_make_key_path [p.ranks.getD i "", p.filename]) := by
  simp [S3Promote.prev_key_path, h]

theorem upload_eq (p : S3Promote) (st : S3Storage) (c g : String)
    (nv : Option String) :
    p.upload st c g nv =
      .ok (putKey (putKey st p.key_path ⟨[("version", default_version nv g)], c⟩)
             (_make_key_path ["archive", default_version nv g, p.filename])
             ⟨[("version", default_version nv g)], c⟩,
           [S3Action.put p.key_path (default_version nv g),
            S3Action.copy p.key_path
              (_make_key_path ["archive", default_version nv g, p.filename])]) := by
  simp only [S3Promote.upload, S3Promote.archive, S3Promote.version, S3Promote.get_key,
    lookupKey_putKey, if_pos rfl, default_version]
  cases nv <;> simp [lookupMeta]

theorem promote_guard_now (p : S3Promote) (st : S3Storage) (c g : String)
    (nv cv : Option String) (hv : p.version st = .ok cv) (he : cv = nv) :
    p.promote st c g nv = .ok ⟨st, some (p.warning_msg cv), []⟩ := by
  simp [S3Promote.promote, hv, he]

theorem promote_guard_prev (p : S3Promote) (st : S3Storage) (c g : String)
    (nv cv pv : Option String) (hv : p.version st = .ok cv) (h1 : cv ≠ nv)
    (hp : p.prev_version st = .ok pv) (he : cv = pv) :
    p.promote st c g nv = .ok ⟨st, some (p.warning_msg cv), []⟩ := by
  simp [S3Promote.promote, hv, h1, hp, he]

theorem promote_upload_path (p : S3Promote) (st : S3Storage) (c g : String)
    (nv cv : Option String) (hv : p.version st = .ok cv) (h1 : cv ≠ nv)
    (h0 : cv ≠ none) (hpr : p.prev_rank_index = none) :
    p.promote st c g nv =
      .ok ⟨putKey (putKey st p.key_path ⟨[("version", default_version nv g)], c⟩)
             (_make_key_path ["archive", default_version nv g, p.filename])
             ⟨[("version", default_version nv g)], c⟩,
           none,
           [S3Action.put p.key_path (default_version nv g),
            S3Action.copy p.key_path
              (_make_key_path ["archive", default_version nv g, p.filename])]⟩ := by
  simp [S3Promote.promote, hv, h1, prev_version_of_no_prev p st hpr, h0, hpr, upload_eq]

theorem promote_copy_path (p : S3Promote) (st : S3Storage) (c g : String)
    (nv cv pv : Option String) (i : Nat) (po : S3Obj)
    (hv : p.version st = .ok cv) (h1 : cv ≠ nv)
    (hp : p.prev_version st = .ok pv) (h2 : cv ≠ pv)
    (hpr : p.prev_rank_index = some i)
    (hsrc : lookupKey st (_make_key_path [p.ranks.getD i "", p.filename]) = some po) :
    p.promote st c g nv =
      .ok ⟨putKey st p.key_path po, none,
           [S3Action.copy (_make_key_path [p.ranks.getD i "", p.filename]) p.key_path]⟩ := by
  simp at hsrc
  simp [S3Promote.promote, hv, h1, hp, h2, hpr, S3Promote.copy_key, hsrc]

theorem promote_copy_missing (p : S3Promote) (st : S3Storage) (c g : String)
    (nv cv pv : Option String) (i : Nat)
    (hv : p.version st = .ok cv) (h1 : cv ≠ nv)
    (hp : p.prev_version st = .ok pv) (h2 : cv ≠ pv)
    (hpr : p.prev_rank_index = some i)
    (hsrc : lookupKey st (_make_key_path [p.ranks.getD i "", p.filename]) = none) :
    p.promote st c g nv = .error .storageNotFound := by
  simp at hsrc
  simp [S3Promote.promote, hv, h1, hp, h2, hpr, S3Promote.copy_key, hsrc]

/-! ## Setter and constructor lemmas -/

theorem set_rank_inv (p : PromoterState) (r : String) (p' : PromoterState)
    (h : p.set_rank r = .ok p') : rank_inv_b p' = true := by
  unfold PromoterState.set_rank at h
  by_cases hm : r ∈ p.ranks
  · rw [if_pos hm] at h
    injection h with h
    subst h
    simp [rank_inv_b, hm]
  · rw [if_neg hm] at h
    exact absurd h (by simp)

/-! ## Claim theorems -/

/-- Claim C5: with ranks `["dev","staging"]`, target rank `"staging"`,
`staging/app.tgz` holding version `"v0"` and `dev/app.tgz` holding version
`"v1"`, `promote()` performs a server-side copy from `dev/app.tgz` to
`staging/app.tgz` (the only mutating call issued) and returns `None`. -/
theorem C5_copy_promote :
    (⟨["dev", "staging"], "app.tgz", "staging"⟩ : S3Promote).promote
        [("staging/app.tgz", ⟨[("version", "v0")], "c0"⟩),
         ("dev/app.tgz", ⟨[("version", "v1")], "c1"⟩)]
        "C" "g" none
      = .ok ⟨[("staging/app.tgz", ⟨[("version", "v1")], "c1"⟩),
              ("dev/app.tgz", ⟨[("version", "v1")], "c1"⟩)],
             none,
             [S3Action.copy "dev/app.tgz" "staging/app.tgz"]⟩ := by
  rfl

/-- Claim C8: the rank setter stores a rank exactly when it is a member (by
exact string match) of the configured rank list, and otherwise raises
`invalid rank`; since the raise aborts the assignment, a failing call yields
no updated object (the caller keeps `p` unchanged), and a successful call
stores exactly the requested rank, changing nothing else. -/
theorem C8_set_rank (p : PromoterState) (r : String) :
    (r ∈ p.ranks → p.set_rank r = .ok { p with rank := some r })
    ∧ (r ∉ p.ranks → p.set_rank r = .error S3Err.invalidRank)
    ∧ (∀ p', p.set_rank r = .ok p' →
        p'.rank = some r ∧ p'.ranks = p.ranks
          ∧ p'.filepath = p.filepath ∧ p'.filename = p.filename) := by
  refine ⟨fun hm => ?_, fun hm => ?_, fun p' h => ?_⟩
  · simp [PromoterState.set_rank, hm]
  · simp [PromoterState.set_rank, hm]
  · unfold PromoterState.set_rank at h
    by_cases hm : r ∈ p.ranks
    · rw [if_pos hm] at h
      injection h with h
      subst h
      exact ⟨rfl, rfl, rfl, rfl⟩
    · rw [if_neg hm] at h
      exact absurd h (by simp)

/-- Claim C8 witness: on ranks `["dev","staging","prod"]`, setting rank
`"staging"` succeeds and stores it; setting rank `"qa"` fails with the
invalid-rank error. -/
theorem C8_set_rank_witness :
    (⟨["dev", "staging", "prod"], none, none, none⟩ : PromoterState).set_rank "staging"
        = .ok ⟨["dev", "staging", "prod"], none, none, some "staging"⟩
    ∧ (⟨["dev", "staging", "prod"], none, none, none⟩ : PromoterState).set_rank "qa"
        = .error S3Err.invalidRank :=
  ⟨(C8_set_rank ⟨["dev", "staging", "prod"], none, none, none⟩ "staging").1 (by decide),
   (C8_set_rank ⟨["dev", "staging", "prod"], none, none, none⟩ "qa").2.1 (by decide)⟩

/-- Claim C9: the version lookups treat only a missing object as the
no-version state: a missing object yields `None`, but an object present at
the looked-up key path without a `'version'` metadata entry makes
`metadata['version']` raise `KeyError`, for both the current-rank and the
previous-rank lookup. -/
theorem C9_metadata_keyerror (p : S3Promote) (st : S3Storage) :
    (∀ o, lookupKey st p.key_path = some o →
        lookupMeta o.metadata "version" = none → p.version st = .error S3Err.keyError)
    ∧ (lookupKey st p.key_path = none → p.version st = .ok none)
    ∧ (∀ src o, p.prev_key_path = some src → lookupKey st src = some o →
        lookupMeta o.metadata "version" = none →
        p.prev_version st = .error S3Err.keyError) := by
  refine ⟨fun o h1 h2 => ?_, fun h1 => ?_, fun src o h0 h1 h2 => ?_⟩
  · simp [S3Promote.version, S3Promote.get_key, h1, h2]
  · simp [S3Promote.version, S3Promote.get_key, h1]
  · simp [S3Promote.prev_version, S3Promote.get_prev_key, h0, h1, h2]

/-- Claim C9 witness: with ranks `["dev","staging"]`, a bare object without
metadata at `dev/app.tgz` makes the `dev`-target version lookup and the
`staging`-target previous-version lookup raise `KeyError`, while the missing
`staging/app.tgz` makes the `staging`-target version lookup return `None`. -/
theorem C9_metadata_keyerror_witness :
    (⟨["dev", "staging"], "app.tgz", "dev"⟩ : S3Promote).version
        [("dev/app.tgz", ⟨[], "c"⟩)] = .error S3Err.keyError
    ∧ (⟨["dev", "staging"], "app.tgz", "staging"⟩ : S3Promote).version
        [("dev/app.tgz", ⟨[], "c"⟩)] = .ok none
    ∧ (⟨["dev", "staging"], "app.tgz", "staging"⟩ : S3Promote).prev_version
        [("dev/app.tgz", ⟨[], "c"⟩)] = .error S3Err.keyError :=
  ⟨(C9_metadata_keyerror ⟨["dev", "staging"], "app.tgz", "dev"⟩
      [("dev/app.tgz", ⟨[], "c"⟩)]).1 ⟨[], "c"⟩ (by rfl) (by rfl),
   (C9_metadata_keyerror ⟨["dev", "staging"], "app.tgz", "staging"⟩
      [("dev/app.tgz", ⟨[], "c"⟩)]).2.1 (by rfl),
   (C9_metadata_keyerror ⟨["dev", "staging"], "app.tgz", "staging"⟩
      [("dev/app.tgz", ⟨[], "c"⟩)]).2.2 "dev/app.tgz" ⟨[], "c"⟩ (by rfl) (by rfl) (by rfl)⟩

/-- Claim C10: whenever a target rank is stored — by `__init__` through the
`rank` keyword argument or later through the rank setter — it is a member of
the configured rank list, and the object-mutating operations (`__init__`,
the rank setter, the filepath setter) all preserve this invariant. -/
theorem C10_rank_membership :
    (∀ kb kr kf krk eb er p,
        PromoterState.init kb kr kf krk eb er = .ok p → rank_inv_b p = true)
    ∧ (∀ (p : PromoterState) r p', p.set_rank r = .ok p' → rank_inv_b p' = true)
    ∧ (∀ (p : PromoterState) fp,
        rank_inv_b p = true → rank_inv_b (p.set_filepath fp) = true) := by
  refine ⟨fun kb kr kf krk eb er p h => ?_, fun p r p' h => set_rank_inv p r p' h,
    fun p fp h => ?_⟩
  · unfold PromoterState.init at h
    cases kb <;> cases eb <;> simp at h <;>
      cases kr <;> cases er <;> simp at h <;>
        cases krk <;>
          first
          | (exact set_rank_inv _ _ _ h)
          | (injection h with h; subst h; cases kf <;> simp [rank_inv_b, PromoterState.set_filepath])
  · cases hr : p.rank with
    | none => simp [rank_inv_b, PromoterState.set_filepath, hr]
    | some r =>
      simp [rank_inv_b, hr] at h
      simp [rank_inv_b, PromoterState.set_filepath, hr, h]

/-- Claim C10 witness: constructing with ranks `"dev,staging"` and rank
keyword `"staging"` yields a state satisfying the membership invariant. -/
theorem C10_rank_membership_witness :
    PromoterState.init (some "b") (some "dev,staging") (some "/tmp/x/app.tgz")
        (some "staging") none none
      = .ok ⟨["dev", "staging"], some "/tmp/x/app.tgz", some "app.tgz", some "staging"⟩
    ∧ rank_inv_b ⟨["dev", "staging"], some "/tmp/x/app.tgz", some "app.tgz", some "staging"⟩
        = true :=
  ⟨by decide,
   C10_rank_membership.1 (some "b") (some "dev,staging") (some "/tmp/x/app.tgz")
     (some "staging") none none _ (by decide)⟩

theorem prev_key_path_eq_none_iff (p : S3Promote) :
    p.prev_key_path = none ↔ p.rank_index = 0 := by
  unfold S3Promote.prev_key_path S3Promote.prev_rank_index
  by_cases h : p.rank_index = 0 <;> simp [h]

theorem list_index_eq_zero_iff {l : List String} {a : String} (h : a ∈ l) :
    list_index l a = 0 ↔ l.head? = some a := by
  cases l with
  | nil => cases h
  | cons x xs =>
    by_cases hx : x = a
    · subst hx; simp [list_index]
    · simp [list_index, hx]

/-- Claim C6: for every rank list R and target rank r that is a member of R,
the previous-rank key path is `None` exactly when r is the first element of
R; otherwise it points at the immediately preceding rank `R[R.index(r)-1]`
(Python `index`: first occurrence) joined with the same filename. -/
theorem C6_prev_rank_lookup (R : List String) (f r : String) (h : r ∈ R) :
    ((⟨R, f, r⟩ : S3Promote).prev_key_path = none ↔ R.head? = some r)
    ∧ (∀ i, R.get? i = some r → (∀ j, j < i → R.get? j ≠ some r) → 0 < i →
        ∃ pr, R.get? (i - 1) = some pr
          ∧ (⟨R, f, r⟩ : S3Promote).prev_key_path = some (_make_key_path [pr, f])) := by
  constructor
  · rw [prev_key_path_eq_none_iff]
    exact list_index_eq_zero_iff h
  · intro i hi hfirst hpos
    have hidx : list_index R r = i := list_index_eq_of_first hi hfirst
    have hlen : i < R.length := List.get?_eq_some.mp hi |>.1
    have hlt : i - 1 < R.length := lt_of_le_of_lt (Nat.sub_le i 1) hlen
    have hne : (⟨R, f, r⟩ : S3Promote).rank_index ≠ 0 := by
      show list_index R r ≠ 0
      rw [hidx]
      exact Nat.pos_iff_ne_zero.mp hpos
    cases hg : R.get? (i - 1) with
    | none =>
      rw [List.get?_eq_none] at hg
      exact absurd hg (not_le_of_lt hlt)
    | some pr =>
      refine ⟨pr, rfl, ?_⟩
      have hgetd : R.getD (i - 1) "" = pr := by
        rw [List.getD_eq_getElem?_getD, ← List.get?_eq_getElem?, hg]
        rfl
      show S3Promote.prev_key_path _ = _
      unfold S3Promote.prev_key_path S3Promote.prev_rank_index
      rw [if_neg hne]
      show some (_make_key_path [R.getD ((⟨R, f, r⟩ : S3Promote).rank_index - 1) "", f]) = _
      have : (⟨R, f, r⟩ : S3Promote).rank_index = i := hidx
      rw [this, hgetd]

/-- Claim C6 witness: with R = `["dev","staging"]` and r = `"staging"` (first
occurrence at index 1), the previous key path is `dev/app.tgz`. -/
theorem C6_prev_rank_lookup_witness :
    ∃ pr, ["dev", "staging"].get? 0 = some pr
      ∧ (⟨["dev", "staging"], "app.tgz", "staging"⟩ : S3Promote).prev_key_path
          = some (_make_key_path [pr, "app.tgz"]) :=
  (C6_prev_rank_lookup ["dev", "staging"] "app.tgz" "staging" (by decide)).2 1
    (by decide) (by decide) (by decide)

theorem lookupKey_double_put (st : S3Storage) (k1 k2 : String) (o : S3Obj) :
    lookupKey (putKey (putKey st k1 o) k2 o) k1 = some o := by
  rw [lookupKey_putKey]
  by_cases h : k1 = k2
  · rw [if_pos h]
  · rw [if_neg h, lookupKey_putKey, if_pos rfl]

/-- Claim C1 counterexample: ranks `["dev","staging","prod"]`, target
`"dev"`, empty bucket, `promote()` with no explicit version.  The claim says
this uploads, archives and returns `None`; in fact both the current and the
previous version are `None`, so the in-rank guard fires: the bucket stays
empty — no object at `dev/app.tgz`, no mutating call issued — and the
warning string is returned. -/
theorem C1_counterexample :
    (⟨["dev", "staging", "prod"], "app.tgz", "dev"⟩ : S3Promote).promote [] "C" "g" none
        = .ok ⟨[], some "app.tgz version None already in dev rank", []⟩
    ∧ lookupKey ([] : S3Storage) "dev/app.tgz" = none :=
  ⟨rfl, rfl⟩

/-- Claim C1 (amended): with ranks `["dev","staging","prod"]` and target
`"dev"`, `promote` on an empty bucket never uploads: for every `new_version`
it returns the already-in-rank warning and issues no storage mutation,
because current and previous version are both `None`.  The upload path into
the first rank runs exactly when an object with some version `w` is already
stored at `dev/<filename>` and `w` differs from the requested version: then
the local file is uploaded to `dev/<filename>` with the requested (or
freshly generated) version, an archive copy is written under
`archive/<version>/<filename>`, and `None` is returned. -/
theorem C1_first_rank_promote (f c g : String) (st : S3Storage)
    (nv : Option String) (w : String) :
    ((⟨["dev", "staging", "prod"], f, "dev"⟩ : S3Promote).promote [] c g nv
        = .ok ⟨[], some ((⟨["dev", "staging", "prod"], f, "dev"⟩ : S3Promote).warning_msg none),
               []⟩)
    ∧ ((⟨["dev", "staging", "prod"], f, "dev"⟩ : S3Promote).version st = .ok (some w) →
        some w ≠ nv →
        (⟨["dev", "staging", "prod"], f, "dev"⟩ : S3Promote).promote st c g nv
          = .ok ⟨putKey (putKey st (_make_key_path ["dev", f])
                           ⟨[("version", default_version nv g)], c⟩)
                   (_make_key_path ["archive", default_version nv g, f])
                   ⟨[("version", default_version nv g)], c⟩,
                 none,
                 [S3Action.put (_make_key_path ["dev", f]) (default_version nv g),
                  S3Action.copy (_make_key_path ["dev", f])
                    (_make_key_path ["archive", default_version nv g, f])]⟩) := by
  constructor
  · cases nv with
    | none =>
      exact promote_guard_now _ [] c g none none rfl rfl
    | some s =>
      exact promote_guard_prev _ [] c g (some s) none none rfl (by simp) rfl rfl
  · intro hv hne
    exact promote_upload_path _ st c g nv (some w) hv hne (by simp) rfl

/-- Claim C1 witness for the amended upload path: `dev/app.tgz` holds
version `"w"`, promoting with explicit version `"v1"` re-uploads and
archives under `archive/v1/app.tgz`, returning `None`. -/
theorem C1_first_rank_promote_witness :
    (⟨["dev", "staging", "prod"], "app.tgz", "dev"⟩ : S3Promote).version
        [("dev/app.tgz", ⟨[("version", "w")], "c0"⟩)] = .ok (some "w")
    ∧ some "w" ≠ some "v1"
    ∧ (⟨["dev", "staging", "prod"], "app.tgz", "dev"⟩ : S3Promote).promote
        [("dev/app.tgz", ⟨[("version", "w")], "c0"⟩)] "C" "g" (some "v1")
        = .ok ⟨[("dev/app.tgz", ⟨[("version", "v1")], "C"⟩),
               ("archive/v1/app.tgz", ⟨[("version", "v1")], "C"⟩)],
               none,
               [S3Action.put "dev/app.tgz" "v1",
                S3Action.copy "dev/app.tgz" "archive/v1/app.tgz"]⟩ :=
  ⟨rfl, by decide,
   (C1_first_rank_promote "app.tgz" "C" "g"
       [("dev/app.tgz", ⟨[("version", "w")], "c0"⟩)] (some "v1") "w").2 rfl (by decide)⟩

/-- Claim C7: `upload` writes the object at `key_path(rank, filename)` with
metadata version equal to the supplied `new_version` when one is given, and
equal to the freshly generated identifier (`str(uuid4())`, never empty) when
`new_version` is `None`; its archive copy lands at the rank-independent path
`archive/<version>/<filename>`. -/
theorem C7_upload_writes_version (p : S3Promote) (st : S3Storage) (c g : String)
    (nv : Option String) (hg : g ≠ "") :
    p.upload st c g nv
        = .ok (putKey (putKey st p.key_path ⟨[("version", default_version nv g)], c⟩)
                 (_make_key_path ["archive", default_version nv g, p.filename])
                 ⟨[("version", default_version nv g)], c⟩,
               [S3Action.put p.key_path (default_version nv g),
                S3Action.copy p.key_path
                  (_make_key_path ["archive", default_version nv g, p.filename])])
    ∧ lookupKey (putKey (putKey st p.key_path ⟨[("version", default_version nv g)], c⟩)
                   (_make_key_path ["archive", default_version nv g, p.filename])
                   ⟨[("version", default_version nv g)], c⟩) p.key_path
        = some ⟨[("version", default_version nv g)], c⟩
    ∧ lookupKey (putKey (putKey st p.key_path ⟨[("version", default_version nv g)], c⟩)
                   (_make_key_path ["archive", default_version nv g, p.filename])
                   ⟨[("version", default_version nv g)], c⟩)
         (_make_key_path ["archive", default_version nv g, p.filename])
        = some ⟨[("version", default_version nv g)], c⟩
    ∧ (∀ s, nv = some s → default_version nv g = s)
    ∧ (nv = none → default_version nv g = g ∧ default_version nv g ≠ "") := by
  refine ⟨upload_eq p st c g nv, lookupKey_double_put st _ _ _, ?_, ?_, ?_⟩
  · rw [lookupKey_putKey, if_pos rfl]
  · intro s hs; subst hs; rfl
  · intro hn; subst hn; exact ⟨rfl, hg⟩

/-- Claim C7 witness: upload with no explicit version writes the generated
identifier `"g1"` at `dev/app.tgz` and archives at `archive/g1/app.tgz`. -/
theorem C7_upload_writes_version_witness :
    (⟨["dev", "staging"], "app.tgz", "dev"⟩ : S3Promote).upload [] "C" "g1" none
        = .ok ([("dev/app.tgz", ⟨[("version", "g1")], "C"⟩),
                ("archive/g1/app.tgz", ⟨[("version", "g1")], "C"⟩)],
               [S3Action.put "dev/app.tgz" "g1",
                S3Action.copy "dev/app.tgz" "archive/g1/app.tgz"])
    ∧ lookupKey [("dev/app.tgz", ⟨[("version", "g1")], "C"⟩),
                 ("archive/g1/app.tgz", ⟨[("version", "g1")], "C"⟩)] "dev/app.tgz"
        = some ⟨[("version", "g1")], "C"⟩
    ∧ lookupKey [("dev/app.tgz", ⟨[("version", "g1")], "C"⟩),
                 ("archive/g1/app.tgz", ⟨[("version", "g1")], "C"⟩)] "archive/g1/app.tgz"
        = some ⟨[("version", "g1")], "C"⟩
    ∧ (∀ s, (none : Option String) = some s → default_version none "g1" = s)
    ∧ ((none : Option String) = none → default_version none "g1" = "g1"
         ∧ default_version none "g1" ≠ "") :=
  C7_upload_writes_version ⟨["dev", "staging"], "app.tgz", "dev"⟩ [] "C" "g1" none
    (by decide)

/-- Claim C3 counterexample: ranks `["dev","staging"]`, target `"staging"`,
`staging/app.tgz` holds version `"v0"`, `dev/app.tgz` is absent, requested
version `"v2"`.  The guard does not fire (`"v0"` matches neither `"v2"` nor
the absent previous version), yet `promote` performs no mutating action at
all: the copy from the missing previous key raises the storage 404. -/
theorem C3_counterexample :
    (⟨["dev", "staging"], "app.tgz", "staging"⟩ : S3Promote).version
        [("staging/app.tgz", ⟨[("version", "v0")], "c0"⟩)] = .ok (some "v0")
    ∧ (⟨["dev", "staging"], "app.tgz", "staging"⟩ : S3Promote).prev_version
        [("staging/app.tgz", ⟨[("version", "v0")], "c0"⟩)] = .ok none
    ∧ (some "v0" : Option String) ≠ some "v2"
    ∧ (some "v0" : Option String) ≠ none
    ∧ (⟨["dev", "staging"], "app.tgz", "staging"⟩ : S3Promote).promote
        [("staging/app.tgz", ⟨[("version", "v0")], "c0"⟩)] "C" "g" (some "v2")
        = .error S3Err.storageNotFound :=
  ⟨rfl, rfl, by decide, by decide, rfl⟩

/-- Claim C3 (amended): when `current_version()` equals `new_version` or
equals `previous_version()`, `promote` mutates nothing and returns the
warning string naming the file, the version and the rank.  Otherwise it
takes exactly one mutation branch: when the target is the first rank it
uploads (one put plus its archive copy) and returns `None`; when the target
has a previous rank whose object exists it issues exactly one copy and
returns `None`; when the previous rank's object is absent it raises the
storage 404 and mutates nothing. -/
theorem C3_promote_cases (p : S3Promote) (st : S3Storage) (c g : String)
    (nv cv pv : Option String)
    (hv : p.version st = .ok cv) (hp : p.prev_version st = .ok pv) :
    ((cv = nv ∨ cv = pv) → p.promote st c g nv = .ok ⟨st, some (p.warning_msg cv), []⟩)
    ∧ (cv ≠ nv → cv ≠ pv → p.prev_rank_index = none →
        p.promote st c g nv
          = .ok ⟨putKey (putKey st p.key_path ⟨[("version", default_version nv g)], c⟩)
                   (_make_key_path ["archive", default_version nv g, p.filename])
                   ⟨[("version", default_version nv g)], c⟩,
                 none,
                 [S3Action.put p.key_path (default_version nv g),
                  S3Action.copy p.key_path
                    (_make_key_path ["archive", default_version nv g, p.filename])]⟩)
    ∧ (cv ≠ nv → cv ≠ pv → ∀ i, p.prev_rank_index = some i →
        (lookupKey st (_make_key_path [p.ranks.getD i "", p.filename]) = none →
            p.promote st c g nv = .error S3Err.storageNotFound)
        ∧ (∀ po, lookupKey st (_make_key_path [p.ranks.getD i "", p.filename]) = some po →
            p.promote st c g nv
              = .ok ⟨putKey st p.key_path po, none,
                     [S3Action.copy (_make_key_path [p.ranks.getD i "", p.filename])
                        p.key_path]⟩)) := by
  refine ⟨fun hg => ?_, fun h1 h2 hpr => ?_, fun h1 h2 i hpr => ⟨fun hsrc => ?_, fun po hsrc => ?_⟩⟩
  · cases hg with
    | inl he => exact promote_guard_now p st c g nv cv hv he
    | inr he =>
      by_cases hnv : cv = nv
      · exact promote_guard_now p st c g nv cv hv hnv
      · exact promote_guard_prev p st c g nv cv pv hv hnv hp he
  · have h0 : cv ≠ none := by
      have hpn : p.prev_version st = .ok none := prev_version_of_no_prev p st hpr
      rw [hp] at hpn
      injection hpn with hpn
      rw [hpn] at h2
      exact h2
    exact promote_upload_path p st c g nv cv hv h1 h0 hpr
  · exact promote_copy_missing p st c g nv cv pv i hv h1 hp h2 hpr hsrc
  · exact promote_copy_path p st c g nv cv pv i po hv h1 hp h2 hpr hsrc

/-- Claim C3 witness: with both ranks populated (`staging` at `"v0"`, `dev`
at `"v1"`) and requested version `"v2"`, `promote` issues exactly the one
copy from `dev/app.tgz` to `staging/app.tgz` and returns `None`. -/
theorem C3_promote_cases_witness :
    (⟨["dev", "staging"], "app.tgz", "staging"⟩ : S3Promote).promote
        [("staging/app.tgz", ⟨[("version", "v0")], "c0"⟩),
         ("dev/app.tgz", ⟨[("version", "v1")], "c1"⟩)] "C" "g" (some "v2")
      = .ok ⟨[("staging/app.tgz", ⟨[("version", "v1")], "c1"⟩),
             ("dev/app.tgz", ⟨[("version", "v1")], "c1"⟩)],
             none,
             [S3Action.copy "dev/app.tgz" "staging/app.tgz"]⟩ :=
  ((C3_promote_cases ⟨["dev", "staging"], "app.tgz", "staging"⟩
      [("staging/app.tgz", ⟨[("version", "v0")], "c0"⟩),
       ("dev/app.tgz", ⟨[("version", "v1")], "c1"⟩)] "C" "g"
      (some "v2") (some "v0") (some "v1") rfl rfl).2.2
    (by decide) (by decide) 0 rfl).2 ⟨[("version", "v1")], "c1"⟩ rfl

theorem promote_version_error (p : S3Promote) (st : S3Storage) (c g : String)
    (nv : Option String) (e : S3Err) (hv : p.version st = .error e) :
    p.promote st c g nv = .error e := by
  simp [S3Promote.promote, hv]

theorem promote_prev_error (p : S3Promote) (st : S3Storage) (c g : String)
    (nv cv : Option String) (e : S3Err) (hv : p.version st = .ok cv)
    (h1 : cv ≠ nv) (hp : p.prev_version st = .error e) :
    p.promote st c g nv = .error e := by
  simp [S3Promote.promote, hv, h1, hp]

theorem version_of_get (p : S3Promote) (st : S3Storage) (o : S3Obj) (v : String)
    (h1 : p.get_key st = some o) (h2 : lookupMeta o.metadata "version" = some v) :
    p.version st = .ok (some v) := by
  simp [S3Promote.version, h1, h2]

theorem prev_version_of_get (p : S3Promote) (st : S3Storage) (o : S3Obj) (v : String)
    (h1 : p.get_prev_key st = some o) (h2 : lookupMeta o.metadata "version" = some v) :
    p.prev_version st = .ok (some v) := by
  simp [S3Promote.prev_version, h1, h2]

/-- Claim C4: promoting the same explicit version `v` twice in succession is
a no-op on the second call: whenever the first `promote(v)` completes
without raising, the second `promote(v)` leaves the bucket exactly as the
first call left it, issues no mutating storage call, and returns a warning
string.  (The fresh-uuid and file-content parameters of the second call are
arbitrary: they are never used.) -/
theorem C4_promote_idempotent (p : S3Promote) (st : S3Storage)
    (c1 g1 c2 g2 v : String) (r1 : PromoteResult)
    (h : p.promote st c1 g1 (some v) = .ok r1) :
    ∃ w, p.promote r1.store c2 g2 (some v) = .ok ⟨r1.store, some w, []⟩ := by
  cases hver : p.version st with
  | error e =>
    rw [promote_version_error p st c1 g1 (some v) e hver] at h
    exact Except.noConfusion h
  | ok cv =>
    by_cases hcv : cv = some v
    · rw [promote_guard_now p st c1 g1 (some v) cv hver hcv] at h
      injection h with h
      subst h
      exact ⟨p.warning_msg cv, promote_guard_now p st c2 g2 (some v) cv hver hcv⟩
    · cases hprev : p.prev_version st with
      | error e =>
        rw [promote_prev_error p st c1 g1 (some v) cv e hver hcv hprev] at h
        exact Except.noConfusion h
      | ok pv =>
        by_cases hpv : cv = pv
        · rw [promote_guard_prev p st c1 g1 (some v) cv pv hver hcv hprev hpv] at h
          injection h with h
          subst h
          exact ⟨p.warning_msg cv,
            promote_guard_prev p st c2 g2 (some v) cv pv hver hcv hprev hpv⟩
        · cases hpri : p.prev_rank_index with
          | none =>
            have h0 : cv ≠ none := by
              have hpn := prev_version_of_no_prev p st hpri
              rw [hprev] at hpn
              injection hpn with hpn
              rw [hpn] at hpv
              exact hpv
            rw [promote_upload_path p st c1 g1 (some v) cv hver hcv h0 hpri] at h
            injection h with h
            subst h
            have hgk : (⟨[("version", default_version (some v) g1)], c1⟩ : S3Obj)
                = ⟨[("version", v)], c1⟩ := rfl
            have hv2 : p.version (putKey (putKey st p.key_path
                  ⟨[("version", default_version (some v) g1)], c1⟩)
                  (_make_key_path ["archive", default_version (some v) g1, p.filename])
                  ⟨[("version", default_version (some v) g1)], c1⟩) = .ok (some v) :=
              version_of_get p _ ⟨[("version", default_version (some v) g1)], c1⟩ v
                (lookupKey_double_put st p.key_path _ _) rfl
            exact ⟨p.warning_msg (some v),
              promote_guard_now p _ c2 g2 (some v) (some v) hv2 rfl⟩
          | some i =>
            cases hsrc : lookupKey st (_make_key_path [p.ranks.getD i "", p.filename]) with
            | none =>
              rw [promote_copy_missing p st c1 g1 (some v) cv pv i
                    hver hcv hprev hpv hpri hsrc] at h
              exact Except.noConfusion h
            | some po =>
              have hppath := prev_key_path_of_index p i hpri
              have hgp : p.get_prev_key st = some po := by
                unfold S3Promote.get_prev_key
                rw [hppath]
                exact hsrc
              have hmeta : ∃ vp, lookupMeta po.metadata "version" = some vp
                  ∧ pv = some vp := by
                cases hm : lookupMeta po.metadata "version" with
                | none =>
                  have hc : p.prev_version st = .error .keyError := by
                    simp [S3Promote.prev_version, hgp, hm]
                  rw [hprev] at hc
                  exact Except.noConfusion hc
                | some vp =>
                  have hc : p.prev_version st = .ok (some vp) :=
                    prev_version_of_get p st po vp hgp hm
                  rw [hprev] at hc
                  injection hc with hc
                  exact ⟨vp, rfl, hc⟩
              obtain ⟨vp, hm, hpveq⟩ := hmeta
              rw [promote_copy_path p st c1 g1 (some v) cv pv i po
                    hver hcv hprev hpv hpri hsrc] at h
              injection h with h
              subst h
              have hlk : lookupKey (putKey st p.key_path po)
                  (_make_key_path [p.ranks.getD i "", p.filename]) = some po := by
                rw [lookupKey_putKey]
                by_cases hsk : _make_key_path [p.ranks.getD i "", p.filename] = p.key_path
                · rw [if_pos hsk]
                · rw [if_neg hsk]; exact hsrc
              have hv2 : p.version (putKey st p.key_path po) = .ok (some vp) :=
                version_of_get p _ po vp
                  (by rw [S3Promote.get_key, lookupKey_putKey, if_pos rfl]) hm
              by_cases hvv : (some vp : Option String) = some v
              · exact ⟨p.warning_msg (some vp),
                  promote_guard_now p _ c2 g2 (some v) (some vp) hv2 hvv⟩
              · have hgp2 : p.get_prev_key (putKey st p.key_path po) = some po := by
                  unfold S3Promote.get_prev_key
                  rw [hppath]
                  exact hlk
                have hp2 : p.prev_version (putKey st p.key_path po) = .ok (some vp) :=
                  prev_version_of_get p _ po vp hgp2 hm
                exact ⟨p.warning_msg (some vp),
                  promote_guard_prev p _ c2 g2 (some v) (some vp) (some vp)
                    hv2 hvv hp2 rfl⟩

/-- Claim C4 witness: promoting version `"v9"` into `staging` (a copy from
`dev`), then promoting `"v9"` again: the second call keeps the bucket
unchanged, issues no mutating call, and returns a warning. -/
theorem C4_promote_idempotent_witness :
    ∃ w, (⟨["dev", "staging"], "app.tgz", "staging"⟩ : S3Promote).promote
        [("staging/app.tgz", ⟨[("version", "v1")], "c1"⟩),
         ("dev/app.tgz", ⟨[("version", "v1")], "c1"⟩)] "C2" "g2" (some "v9")
      = .ok ⟨[("staging/app.tgz", ⟨[("version", "v1")], "c1"⟩),
             ("dev/app.tgz", ⟨[("version", "v1")], "c1"⟩)],
             some w, []⟩ :=
  C4_promote_idempotent ⟨["dev", "staging"], "app.tgz", "staging"⟩
    [("staging/app.tgz", ⟨[("version", "v0")], "c0"⟩),
     ("dev/app.tgz", ⟨[("version", "v1")], "c1"⟩)] "C" "g" "C2" "g2" "v9"
    ⟨[("staging/app.tgz", ⟨[("version", "v1")], "c1"⟩),
      ("dev/app.tgz", ⟨[("version", "v1")], "c1"⟩)],
     none, [S3Action.copy "dev/app.tgz" "staging/app.tgz"]⟩ rfl

/-! ## The archive invariant -/

theorem archive_inv_iff (ranks : List String) (f : String) (st : S3Storage) :
    archive_inv_b ranks f st = true ↔
      ∀ r ∈ ranks, ∀ o, lookupKey st (_make_key_path [r, f]) = some o →
        ∀ v, lookupMeta o.metadata "version" = some v →
          (lookupKey st (_make_key_path ["archive", v, f])).isSome = true := by
  rw [archive_inv_b, List.all_eq_true]
  constructor
  · intro h r hr o ho v hv
    have hb := h r hr
    simp only [ho, hv] at hb
    exact hb
  · intro h r hr
    cases hl : lookupKey st (_make_key_path [r, f]) with
    | none => simp [hl]
    | some o =>
      cases hmv : lookupMeta o.metadata "version" with
      | none => simp [hl, hmv]
      | some v =>
        simp only [hl, hmv]
        exact h r hr o hl v hmv

theorem prev_rank_getD_mem (p : S3Promote) (i : Nat) (hm : p.rank ∈ p.ranks)
    (h : p.prev_rank_index = some i) : p.ranks.getD i "" ∈ p.ranks := by
  have hne : p.rank_index ≠ 0 ∧ i = p.rank_index - 1 := by
    unfold S3Promote.prev_rank_index at h
    by_cases h0 : p.rank_index = 0
    · rw [if_pos h0] at h; exact Option.noConfusion h
    · rw [if_neg h0] at h; injection h with h; exact ⟨h0, h.symm⟩
  obtain ⟨h0, hi⟩ := hne
  have hlt : p.rank_index < p.ranks.length := list_index_lt_length hm
  have hilt : i < p.ranks.length := by
    rw [hi]; exact lt_of_le_of_lt (Nat.sub_le _ _) hlt
  have hg : p.ranks.getD i "" = p.ranks[i] := by
    rw [List.getD_eq_getElem?_getD, List.getElem?_eq_getElem hilt]
    rfl
  rw [hg]
  exact List.getElem_mem hilt

theorem archive_inv_putKey (ranks : List String) (f : String) (st : S3Storage)
    (k : String) (o : S3Obj)
    (hinv : archive_inv_b ranks f st = true)
    (hobj : ∀ v, lookupMeta o.metadata "version" = some v →
        (lookupKey (putKey st k o) (_make_key_path ["archive", v, f])).isSome = true) :
    archive_inv_b ranks f (putKey st k o) = true := by
  rw [archive_inv_iff] at hinv ⊢
  intro r hr o2 ho2 v hv
  rw [lookupKey_putKey] at ho2
  by_cases hk : _make_key_path [r, f] = k
  · rw [if_pos hk] at ho2
    injection ho2 with ho2
    subst ho2
    exact hobj v hv
  · rw [if_neg hk] at ho2
    exact isSome_lookupKey_putKey st k _ o (hinv r hr o2 ho2 v hv)

theorem archive_inv_upload (ranks : List String) (f kp : String) (st : S3Storage)
    (o : S3Obj) (v : String)
    (hinv : archive_inv_b ranks f st = true)
    (hmeta : lookupMeta o.metadata "version" = some v) :
    archive_inv_b ranks f
      (putKey (putKey st kp o) (_make_key_path ["archive", v, f]) o) = true := by
  rw [archive_inv_iff] at hinv ⊢
  intro r hr o2 ho2 v2 hv2
  rw [lookupKey_putKey] at ho2
  by_cases h1 : _make_key_path [r, f] = _make_key_path ["archive", v, f]
  · rw [if_pos h1] at ho2
    injection ho2 with ho2
    subst ho2
    rw [hmeta] at hv2
    injection hv2 with hv2
    subst hv2
    rw [lookupKey_putKey, if_pos rfl]
    rfl
  · rw [if_neg h1, lookupKey_putKey] at ho2
    by_cases h2 : _make_key_path [r, f] = kp
    · rw [if_pos h2] at ho2
      injection ho2 with ho2
      subst ho2
      rw [hmeta] at hv2
      injection hv2 with hv2
      subst hv2
      rw [lookupKey_putKey, if_pos rfl]
      rfl
    · rw [if_neg h2] at ho2
      exact isSome_lookupKey_putKey _ _ _ _
        (isSome_lookupKey_putKey _ _ _ _ (hinv r hr o2 ho2 v2 hv2))

/-- Claim C2 counterexample: target `"staging"`, `dev/app.tgz` holds version
`"v1"` with no archive copy anywhere, `staging/app.tgz` absent.  `promote`
succeeds through the copy path, yet its only mutating call is the one copy
between rank keys — no archive object is written, and after the call no
archive copy exists for the version now sitting in `staging`. -/
theorem C2_counterexample :
    (⟨["dev", "staging"], "app.tgz", "staging"⟩ : S3Promote).promote
        [("dev/app.tgz", ⟨[("version", "v1")], "c1"⟩)] "C" "g" (some "v2")
      = .ok ⟨[("dev/app.tgz", ⟨[("version", "v1")], "c1"⟩),
             ("staging/app.tgz", ⟨[("version", "v1")], "c1"⟩)],
             none, [S3Action.copy "dev/app.tgz" "staging/app.tgz"]⟩
    ∧ lookupKey [("dev/app.tgz", ⟨[("version", "v1")], "c1"⟩),
                 ("staging/app.tgz", ⟨[("version", "v1")], "c1"⟩)]
        "archive/v1/app.tgz" = none :=
  ⟨rfl, rfl⟩

/-- Claim C2 (amended): an archive object is written only on the upload
path; the copy-promote path issues no archive write.  What does hold is the
archive invariant: if every version stored at a rank key already has an
archive copy at `archive/<version>/<filename>` — as upload guarantees for
the versions it introduces — then after any successful `promote` this is
still true, so in particular the version landed in a non-first rank by
copy-promote has an archive copy (the one written when it was uploaded). -/
theorem C2_archive_invariant (p : S3Promote) (st : S3Storage) (c g : String)
    (nv : Option String) (r : PromoteResult)
    (hm : p.rank ∈ p.ranks)
    (hinv : archive_inv_b p.ranks p.filename st = true)
    (hok : p.promote st c g nv = .ok r) :
    archive_inv_b p.ranks p.filename r.store = true := by
  cases hver : p.version st with
  | error e =>
    rw [promote_version_error p st c g nv e hver] at hok
    exact Except.noConfusion hok
  | ok cv =>
    by_cases hcv : cv = nv
    · rw [promote_guard_now p st c g nv cv hver hcv] at hok
      injection hok with hok
      subst hok
      exact hinv
    · cases hprev : p.prev_version st with
      | error e =>
        rw [promote_prev_error p st c g nv cv e hver hcv hprev] at hok
        exact Except.noConfusion hok
      | ok pv =>
        by_cases hpv : cv = pv
        · rw [promote_guard_prev p st c g nv cv pv hver hcv hprev hpv] at hok
          injection hok with hok
          subst hok
          exact hinv
        · cases hpri : p.prev_rank_index with
          | none =>
            have h0 : cv ≠ none := by
              have hpn := prev_version_of_no_prev p st hpri
              rw [hprev] at hpn
              injection hpn with hpn
              rw [hpn] at hpv
              exact hpv
            rw [promote_upload_path p st c g nv cv hver hcv h0 hpri] at hok
            injection hok with hok
            subst hok
            exact archive_inv_upload p.ranks p.filename p.key_path st
              ⟨[("version", default_version nv g)], c⟩ (default_version nv g) hinv rfl
          | some i =>
            cases hsrc : lookupKey st (_make_key_path [p.ranks.getD i "", p.filename]) with
            | none =>
              rw [promote_copy_missing p st c g nv cv pv i
                    hver hcv hprev hpv hpri hsrc] at hok
              exact Except.noConfusion hok
            | some po =>
              rw [promote_copy_path p st c g nv cv pv i po
                    hver hcv hprev hpv hpri hsrc] at hok
              injection hok with hok
              subst hok
              apply archive_inv_putKey p.ranks p.filename st p.key_path po hinv
              intro v hv
              have hmem : p.ranks.getD i "" ∈ p.ranks := prev_rank_getD_mem p i hm hpri
              have hold : (lookupKey st (_make_key_path ["archive", v, p.filename])).isSome
                  = true := by
                rw [archive_inv_iff] at hinv
                exact hinv _ hmem po hsrc v hv
              exact isSome_lookupKey_putKey st p.key_path _ po hold

/-- Claim C2 witness: `dev/app.tgz` holds version `"v1"` with its archive
copy present; copy-promoting into `staging` keeps the invariant: the
version now in `staging` still has its archive copy. -/
theorem C2_archive_invariant_witness :
    archive_inv_b ["dev", "staging"] "app.tgz"
        [("dev/app.tgz", ⟨[("version", "v1")], "c1"⟩),
         ("archive/v1/app.tgz", ⟨[("version", "v1")], "c1"⟩),
         ("staging/app.tgz", ⟨[("version", "v1")], "c1"⟩)] = true :=
  C2_archive_invariant ⟨["dev", "staging"], "app.tgz", "staging"⟩
    [("dev/app.tgz", ⟨[("version", "v1")], "c1"⟩),
     ("archive/v1/app.tgz", ⟨[("version", "v1")], "c1"⟩)] "C" "g" (some "v2")
    ⟨[("dev/app.tgz", ⟨[("version", "v1")], "c1"⟩),
      ("archive/v1/app.tgz", ⟨[("version", "v1")], "c1"⟩),
      ("staging/app.tgz", ⟨[("version", "v1")], "c1"⟩)],
     none, [S3Action.copy "dev/app.tgz" "staging/app.tgz"]⟩
    (by decide) (by decide) rfl
